import Mathlib

/-!
Verification of the isle entity-component core: a shallow embedding of
`src/src/registry/entity_registry.rs` and `src/src/registry/event_registry.rs`,
plus spec-modelled definitions for the operations the repository only
declares (the `StateQueue` trait's `stage`/`commit`, and `remove_component`).

Modelling choices:
* `TypeId` becomes an opaque `Nat` tag; entity keys stay `String`.
* `HashMap` becomes an association list with replace-on-insert semantics;
  `HashSet` becomes a duplicate-free list where only membership matters.
* `Box<dyn Any>` becomes `Boxed V`: a payload together with the `Nat` tag of
  its dynamic type; `downcast_ref::<T>` becomes a tag-equality check.
* A Rust function that can panic returns `RunResult`, separating a panic
  from an `Option` return value.
-/

/-- Association-list lookup, mirroring `HashMap::get`. -/
def mapGet {A B : Type} [DecidableEq A] : List (A × B) → A → Option B
  | [], _ => none
  | (k, v) :: rest, a => if k = a then some v else mapGet rest a

/-- Association-list insert with replacement, mirroring `HashMap::insert`
(and `entry(..).or_insert(..)` followed by an in-place update). -/
def mapInsert {A B : Type} [DecidableEq A] : List (A × B) → A → B → List (A × B)
  | [], a, b => [(a, b)]
  | (k, v) :: rest, a, b =>
    if k = a then (a, b) :: rest else (k, v) :: mapInsert rest a b

/-- Association-list removal, mirroring `HashMap::remove` (value dropped).
A `HashMap` holds at most one binding per key, and lists built by
`mapInsert` do too, so dropping every binding for the key is the same
operation. -/
def mapRemove {A B : Type} [DecidableEq A] (m : List (A × B)) (a : A) :
    List (A × B) :=
  m.filter (fun kv => kv.1 ≠ a)

/-- Set insert, mirroring `HashSet::insert`: no duplicate is created. -/
def setInsert {A : Type} [DecidableEq A] (s : List A) (a : A) : List A :=
  if a ∈ s then s else s ++ [a]

/-- Set removal, mirroring `HashSet::remove`. -/
def setRemove {A : Type} [DecidableEq A] (s : List A) (a : A) : List A :=
  s.filter (fun x => x ≠ a)

/-- Set intersection, mirroring `&s & t` on `HashSet`s. -/
def setInter {A : Type} [DecidableEq A] (s t : List A) : List A :=
  s.filter (fun x => x ∈ t)

theorem mapGet_mapInsert {A B : Type} [DecidableEq A]
    (m : List (A × B)) (a a' : A) (b : B) :
    mapGet (mapInsert m a b) a' = if a = a' then some b else mapGet m a' := by
  induction m with
  | nil => simp [mapInsert, mapGet]
  | cons kv rest ih =>
    obtain ⟨k, v⟩ := kv
    by_cases hk : k = a
    · subst hk
      by_cases ha : k = a' <;> simp [mapInsert, mapGet, ha]
    · by_cases ha : k = a'
      · subst ha
        have : ¬ a = k := fun h => hk h.symm
        simp [mapInsert, mapGet, hk, this]
      · simp [mapInsert, mapGet, hk, ha, ih]

theorem mapGet_mapRemove_ne {A B : Type} [DecidableEq A]
    (m : List (A × B)) (a a' : A) (h : a ≠ a') :
    mapGet (mapRemove m a) a' = mapGet m a' := by
  induction m with
  | nil => simp [mapRemove, mapGet]
  | cons kv rest ih =>
    obtain ⟨k, v⟩ := kv
    by_cases hk : k = a
    · subst hk
      have hka : ¬ k = a' := fun hh => h hh
      simp [mapRemove, mapGet, hka, List.filter_cons] at ih ⊢
      exact ih
    · by_cases ha : k = a'
      · subst ha
        simp [mapRemove, mapGet, hk, List.filter_cons]
      · simp [mapRemove, mapGet, hk, ha, List.filter_cons] at ih ⊢
        exact ih

theorem mapGet_mapRemove_self {A B : Type} [DecidableEq A]
    (m : List (A × B)) (a : A) :
    mapGet (mapRemove m a) a = none := by
  induction m with
  | nil => simp [mapRemove, mapGet]
  | cons kv rest ih =>
    obtain ⟨k, v⟩ := kv
    by_cases hk : k = a
    · simpa [mapRemove, List.filter_cons, hk] using ih
    · simpa [mapRemove, mapGet, List.filter_cons, hk] using ih

theorem mapRemove_of_none {A B : Type} [DecidableEq A]
    (m : List (A × B)) (a : A) (h : mapGet m a = none) :
    mapRemove m a = m := by
  induction m with
  | nil => simp [mapRemove]
  | cons kv rest ih =>
    obtain ⟨k, v⟩ := kv
    by_cases hk : k = a
    · simp [mapGet, hk] at h
    · simp [mapGet, hk] at h
      simp [mapRemove, List.filter_cons, hk] at ih ⊢
      exact ih h

theorem mapInsert_of_get {A B : Type} [DecidableEq A]
    (m : List (A × B)) (a : A) (b : B) (h : mapGet m a = some b) :
    mapInsert m a b = m := by
  induction m with
  | nil => simp [mapGet] at h
  | cons kv rest ih =>
    obtain ⟨k, v⟩ := kv
    by_cases hk : k = a
    · subst hk
      simp [mapGet] at h
      simp [mapInsert, h]
    · simp [mapGet, hk] at h
      simp [mapInsert, hk, ih h]

theorem mem_setInsert {A : Type} [DecidableEq A] (s : List A) (a a' : A) :
    a' ∈ setInsert s a ↔ a' = a ∨ a' ∈ s := by
  by_cases h : a ∈ s
  · simp [setInsert, h]
    intro he
    subst he
    exact h
  · simp [setInsert, h, or_comm]

theorem mem_setRemove {A : Type} [DecidableEq A] (s : List A) (a a' : A) :
    a' ∈ setRemove s a ↔ a' ∈ s ∧ a' ≠ a := by
  simp [setRemove]

theorem setRemove_of_not_mem {A : Type} [DecidableEq A] (s : List A) (a : A)
    (h : a ∉ s) : setRemove s a = s := by
  rw [setRemove, List.filter_eq_self]
  intro x hx
  simp
  exact fun he => h (he ▸ hx)

/-- A type-erased stored value: the payload together with the tag of its
dynamic type, mirroring `Box<dyn Any>`. -/
structure Boxed (V : Type) where
  tag : Nat
  val : V
  deriving DecidableEq

/-- The component store, mirroring `EntityRegistry`:
`entities: HashMap<(String, TypeId), Box<dyn Any>>` and
`components: HashMap<TypeId, HashSet<String>>` (the reverse index). -/
structure EntityRegistry (V : Type) where
  entities : List ((String × Nat) × Boxed V)
  components : List (Nat × List String)
  deriving DecidableEq

/-- `EntityRegistry::new` — the default (empty) registry. -/
def EntityRegistry.new {V : Type} : EntityRegistry V :=
  { entities := [], components := [] }

/-- `add_component<T>(entity, component)`: registers the entity in T's
reverse-index entry (creating it when absent) and stores the boxed value
under key `(entity, TypeId::of::<T>())`.  The boxed value's dynamic tag is
the key's tag, exactly as `Box::new(component)` with `component : T`. -/
def add_component {V : Type} (r : EntityRegistry V) (e : String) (t : Nat)
    (x : V) : EntityRegistry V :=
  let comps := setInsert ((mapGet r.components t).getD []) e
  { entities := mapInsert r.entities (e, t) ⟨t, x⟩
    components := mapInsert r.components t comps }

/-- `get_component<T>(entity)`: looks the slot up under
`(entity, TypeId::of::<T>())`, then `downcast_ref::<T>` — modelled as a
check that the stored dynamic tag equals T's tag. -/
def get_component {V : Type} (r : EntityRegistry V) (t : Nat) (e : String) :
    Option V :=
  match mapGet r.entities (e, t) with
  | none => none
  | some b => if b.tag = t then some b.val else none

/-- `get_entities_by_component<T>()`: `self.components.get(&type_id)?`,
so an unknown tag yields `None`, not an empty set. -/
def get_entities_by_component {V : Type} (r : EntityRegistry V) (t : Nat) :
    Option (List String) :=
  mapGet r.components t

/-- Result of a Rust call that may panic instead of returning. -/
inductive RunResult (A : Type) where
  | panicked : RunResult A
  | returned : Option A → RunResult A
  deriving DecidableEq

/-- The intersection loop of `get_entities_by_components`:
`for component in &components[1..] { set = &set & self.components.get(&component)?; }`. -/
def intersectLoop {V : Type} (r : EntityRegistry V) :
    List Nat → List String → RunResult (List String)
  | [], s => RunResult.returned (some s)
  | c :: cs, s =>
    match mapGet r.components c with
    | none => RunResult.returned none
    | some s2 => intersectLoop r cs (setInter s s2)

/-- `get_entities_by_components(components: Vec<TypeId>)`: indexes
`components[0]` unconditionally — a panic on the empty vector — then seeds
the running set from the first tag's entry (`?` on a missing entry) and
intersects through the rest. -/
def get_entities_by_components {V : Type} (r : EntityRegistry V)
    (cs : List Nat) : RunResult (List String) :=
  match cs with
  | [] => RunResult.panicked
  | c :: rest =>
    match mapGet r.components c with
    | none => RunResult.returned none
    | some s => intersectLoop r rest s

/-- Modelled from the spec: `remove_component<T>(entity)` is described in the
spec but absent from the source tree — "removes the slot and updates the
reverse index; no-op if absent". -/
def remove_component {V : Type} (r : EntityRegistry V) (t : Nat) (e : String) :
    EntityRegistry V :=
  { entities := mapRemove r.entities (e, t)
    components :=
      match mapGet r.components t with
      | none => r.components
      | some s => mapInsert r.components t (setRemove s e) }

/-- A state-changing public store operation (lookups and queries take the
registry by shared reference and leave it unchanged). -/
inductive StoreOp (V : Type) where
  | add (e : String) (t : Nat) (x : V)
  | remove (t : Nat) (e : String)
  deriving DecidableEq

/-- Apply one public operation to the store. -/
def applyOp {V : Type} (r : EntityRegistry V) : StoreOp V → EntityRegistry V
  | StoreOp.add e t x => add_component r e t x
  | StoreOp.remove t e => remove_component r t e

/-- Every store state reachable from the empty store by a sequence of
public operations. -/
def build {V : Type} (ops : List (StoreOp V)) : EntityRegistry V :=
  ops.foldl applyOp EntityRegistry.new

/-- One registered subscription, mirroring `EventSubscriptionArgs`: the Rust
value pairs a type-erased wrapper closure with an optional filter.  The
wrapper closure captures the user callback and the subscription's event type
`T`; it downcasts the incoming `&dyn Any` to `T` and calls the callback only
on success.  The opaque user callback is modelled by an identifier `cb`, and
the captured `T` by its tag. -/
structure EventSubscriptionArgs (F : Type) where
  tag : Nat
  cb : Nat
  filter : Option F
  deriving DecidableEq

/-- The event bus, mirroring `EventRegistry`:
`registry: HashMap<TypeId, Vec<EventSubscriptionArgs>>`. -/
structure EventRegistry (F : Type) where
  registry : List (Nat × List (EventSubscriptionArgs F))
  deriving DecidableEq

/-- `EventRegistry::new` — the default (empty) bus. -/
def EventRegistry.new {F : Type} : EventRegistry F :=
  { registry := [] }

/-- `subscribe_with_filter<T>(callback, filter)`: wraps the callback with a
downcast against `T` (recorded as the stored `tag`) and pushes it, with the
filter unchanged, onto the vector at key `TypeId::of::<T>()`
(`entry(type_id).or_insert(Vec::new())` then `push`). -/
def subscribe_with_filter {F : Type} (r : EventRegistry F) (t : Nat) (c : Nat)
    (f : Option F) : EventRegistry F :=
  let subs := (mapGet r.registry t).getD []
  { registry := mapInsert r.registry t (subs ++ [⟨t, c, f⟩]) }

/-- `subscribe<T>(callback)` — `subscribe_with_filter(callback, None)`. -/
def subscribe {F : Type} (r : EventRegistry F) (t : Nat) (c : Nat) :
    EventRegistry F :=
  subscribe_with_filter r t c none

/-- `invoke<T>(event)`: looks up the vector at `TypeId::of::<T>()` (absent
key: nothing runs) and calls each wrapper in order; each wrapper invokes its
user callback iff its captured type's tag matches the event's dynamic tag
`t`.  Returns the trace of user callbacks invoked, in invocation order. -/
def invoke {F : Type} (r : EventRegistry F) (t : Nat) : List Nat :=
  match mapGet r.registry t with
  | none => []
  | some subs => (subs.filter (fun s => s.tag = t)).map (fun s => s.cb)

/-- `get_subscriptions<T>()` — `self.registry.get(&type_id)`. -/
def get_subscriptions {F : Type} (r : EventRegistry F) (t : Nat) :
    Option (List (EventSubscriptionArgs F)) :=
  mapGet r.registry t

/-- A subscribe call: event type tag, callback identifier, filter. -/
structure EventOp (F : Type) where
  etag : Nat
  ecb : Nat
  efilter : Option F
  deriving DecidableEq

/-- Every bus state reachable from the empty bus by subscribe calls
(`invoke` and `get_subscriptions` add no subscriptions). -/
def buildEvents {F : Type} (ops : List (EventOp F)) : EventRegistry F :=
  ops.foldl (fun r o => subscribe_with_filter r o.etag o.ecb o.efilter)
    EventRegistry.new

/-- Modelled from the spec: the deferred-mutation slot.  The source only
declares the `StateQueue` trait (`stage`/`commit` signatures in
`src/traits/src/lib.rs`) and an empty derive impl; no implementation exists
in the tree.  The spec: a FIFO queue of pending mutations attached to a
(entity, tag) slot; `stage` appends; `commit` drains the queue captured at
call time and applies each mutation in enqueue order exactly once. -/
structure Slot (M V : Type) where
  value : V
  queue : List M

/-- Modelled from the spec: `stage` appends the mutation to the slot's FIFO
queue without touching the component value. -/
def stage {M V : Type} (s : Slot M V) (m : M) : Slot M V :=
  { s with queue := s.queue ++ [m] }

/-- Modelled from the spec: the start of a `commit` — the drain operates on
a snapshot captured at call time, so the pending list is taken and the live
queue is emptied. -/
structure Draining (M V : Type) where
  value : V
  pending : List M
  queue : List M

/-- Modelled from the spec: `commit` begins by snapshotting the queue. -/
def beginCommit {M V : Type} (s : Slot M V) : Draining M V :=
  { value := s.value, pending := s.queue, queue := [] }

/-- Modelled from the spec: a `stage` that lands while a commit is draining
appends to the live queue, not to the snapshot being drained. -/
def stageLive {M V : Type} (d : Draining M V) (m : M) : Draining M V :=
  { d with queue := d.queue ++ [m] }

/-- Modelled from the spec: the drain applies each snapshotted mutation in
enqueue order, exactly once; what was staged during the drain becomes the
next slot queue. -/
def finishCommit {M V : Type} (app : M → V → V) (d : Draining M V) :
    Slot M V :=
  { value := d.pending.foldl (fun v m => app m v) d.value, queue := d.queue }

/-- Modelled from the spec: a full `commit` with no concurrent staging. -/
def commit {M V : Type} (app : M → V → V) (s : Slot M V) : Slot M V :=
  finishCommit app (beginCommit s)

theorem intersectLoop_unknown {V : Type} (r : EntityRegistry V)
    (cs : List Nat) (t : Nat) (ht : t ∈ cs)
    (h : mapGet r.components t = none) :
    ∀ s, intersectLoop r cs s = RunResult.returned none := by
  induction cs with
  | nil => cases ht
  | cons c cs ih =>
    intro s
    rcases List.mem_cons.mp ht with h1 | h2
    · subst h1
      simp [intersectLoop, h]
    · cases hc : mapGet r.components c with
      | none => simp [intersectLoop, hc]
      | some s2 =>
        simp [intersectLoop, hc]
        exact ih h2 _

/-- Claim C1 (counterexample): called with an empty tag list,
`get_entities_by_components` panics — it indexes `components[0]`
unconditionally — and its outcome is not an empty result set. -/
theorem c1_counterexample :
    get_entities_by_components (EntityRegistry.new : EntityRegistry Nat) []
        = RunResult.panicked ∧
      (RunResult.panicked : RunResult (List String))
        ≠ RunResult.returned (some []) := by
  exact ⟨rfl, by decide⟩

/-- Claim C1 (amended): for every store state, calling
`get_entities_by_components` with an empty list of type tags panics with an
index-out-of-bounds on `components[0]`; it does not return an empty set and
does not match everything. -/
theorem c1_empty_query_panics {V : Type} (r : EntityRegistry V) :
    get_entities_by_components r [] = RunResult.panicked := rfl

/-- Claim C2 (counterexample): on the empty store, tag 0 is unknown and
`get_entities_by_component` returns the absent result `none`, not an empty
set; and a nonempty tag list containing the unknown tag 1 makes
`get_entities_by_components` return `none`, not an empty set. -/
theorem c2_counterexample :
    get_entities_by_component (EntityRegistry.new : EntityRegistry Nat) 0
        = none ∧
      get_entities_by_components
          (add_component (EntityRegistry.new : EntityRegistry Nat) "hero" 0 1)
          [0, 1]
        = RunResult.returned none := by
  constructor
  · rfl
  · rfl

/-- Claim C2 (amended): when a type tag is unknown to the store (no
reverse-index entry), `get_entities_by_component` returns the absent result
`none` — not an empty set — and `get_entities_by_components` on any nonempty
tag list containing that tag also returns `none`. -/
theorem c2_unknown_tag_absent {V : Type} (r : EntityRegistry V)
    (t : Nat) (l : List Nat) (h : mapGet r.components t = none) :
    get_entities_by_component r t = none ∧
      (t ∈ l → l ≠ [] →
        get_entities_by_components r l = RunResult.returned none) := by
  refine ⟨h, ?_⟩
  intro hmem hne
  cases l with
  | nil => exact absurd rfl hne
  | cons c rest =>
    rcases List.mem_cons.mp hmem with h1 | h2
    · subst h1
      simp [get_entities_by_components, h]
    · cases hc : mapGet r.components c with
      | none => simp [get_entities_by_components, hc]
      | some s =>
        simp [get_entities_by_components, hc]
        exact intersectLoop_unknown r rest t h2 h s

/-- Claim C2 (witness): the amended statement evaluated on the empty store
with tag 0 and tag list `[0]`. -/
theorem c2_unknown_tag_absent_witness :
    get_entities_by_component (EntityRegistry.new : EntityRegistry Nat) 0
        = none ∧
      get_entities_by_components (EntityRegistry.new : EntityRegistry Nat) [0]
        = RunResult.returned none := by
  have h := c2_unknown_tag_absent (EntityRegistry.new : EntityRegistry Nat)
    0 [0] (by decide)
  exact ⟨h.1, h.2 (by decide) (by decide)⟩

/-- Claim C5: immediately after `add_component(e, x)`,
`get_component::<T>(e)` returns `Some(x)`, for every prior store state —
including states where `e` already held a `T` component, so a re-add
overwrites in place (last write wins) and is never an error. -/
theorem c5_add_then_get {V : Type} (r : EntityRegistry V) (e : String)
    (t : Nat) (x : V) :
    get_component (add_component r e t x) t e = some x := by
  simp [get_component, add_component, mapGet_mapInsert]

/-- Claim C9: after `subscribe_with_filter::<E>(cb, f)`, the list returned
by `get_subscriptions::<E>()` contains a subscription whose stored filter
equals `f` unchanged. -/
theorem c9_filter_roundtrip {F : Type} (r : EventRegistry F) (t : Nat)
    (c : Nat) (f : Option F) :
    ∃ l, get_subscriptions (subscribe_with_filter r t c f) t = some l ∧
      ∃ s, s ∈ l ∧ s.filter = f := by
  refine ⟨(mapGet r.registry t).getD [] ++ [⟨t, c, f⟩], ?_, ⟨t, c, f⟩, ?_, rfl⟩
  · simp [get_subscriptions, subscribe_with_filter, mapGet_mapInsert]
  · simp

/-- Claim C10: `add_component(e, x)` of type tag `t` is frame-preserving —
for every slot `(e', t')` other than `(e, t)` the result of `get_component`
is unchanged, and the reverse-index entry of every tag other than `t` is
unchanged. -/
theorem c10_add_frame {V : Type} (r : EntityRegistry V) (e e' : String)
    (t t' : Nat) (x : V) :
    ((e, t) ≠ (e', t') →
      get_component (add_component r e t x) t' e' = get_component r t' e') ∧
    (t ≠ t' →
      get_entities_by_component (add_component r e t x) t' =
        get_entities_by_component r t') := by
  constructor
  · intro h
    simp [get_component, add_component, mapGet_mapInsert, h]
  · intro h
    simp [get_entities_by_component, add_component, mapGet_mapInsert, h]

/-- Claim C10 (witness): the frame property evaluated at the concrete slot
`("hero", 0)` against the distinct slot `("hero", 1)` on the empty store. -/
theorem c10_add_frame_witness :
    get_component
        (add_component (EntityRegistry.new : EntityRegistry Nat) "hero" 0 1)
        1 "hero"
      = get_component (EntityRegistry.new : EntityRegistry Nat) 1 "hero" ∧
    get_entities_by_component
        (add_component (EntityRegistry.new : EntityRegistry Nat) "hero" 0 1) 1
      = get_entities_by_component (EntityRegistry.new : EntityRegistry Nat)
          1 := by
  have h := c10_add_frame (EntityRegistry.new : EntityRegistry Nat)
    "hero" "hero" 0 1 1
  exact ⟨h.1 (by decide), h.2 (by decide)⟩

theorem foldl_stage {M V : Type} (s : Slot M V) (ms : List M) :
    ms.foldl stage s = { value := s.value, queue := s.queue ++ ms } := by
  induction ms generalizing s with
  | nil => simp
  | cons m ms ih => simp [stage, ih]

theorem foldl_stageLive {M V : Type} (d : Draining M V) (ns : List M) :
    ns.foldl stageLive d =
      { value := d.value, pending := d.pending, queue := d.queue ++ ns } := by
  induction ns generalizing d with
  | nil => simp
  | cons n ns ih => simp [stageLive, ih]

theorem foldl_append_trace {M : Type} (ms : List M) (l : List M) :
    ms.foldl (fun a m => a ++ [m]) l = l ++ ms := by
  induction ms generalizing l with
  | nil => simp
  | cons m ms ih => simp [ih]

/-- Claim C3: staging `ms` builds the slot queue in FIFO order; a commit
drains exactly the snapshot taken when it began, applying each staged
mutation once in enqueue order (with list-appending mutations the applied
trace is literally `ms`); mutations `ns` staged after the commit began
draining are not applied by it — they form the next queue and are applied,
again in order, by the next commit. -/
theorem c3_stage_commit_fifo {M V : Type} (app : M → V → V) (v : V)
    (ms ns : List M) :
    (ms.foldl stage { value := v, queue := [] }).queue = ms ∧
    (finishCommit app
        (ns.foldl stageLive (beginCommit { value := v, queue := ms }))).value
      = ms.foldl (fun a m => app m a) v ∧
    (finishCommit app
        (ns.foldl stageLive (beginCommit { value := v, queue := ms }))).queue
      = ns ∧
    (commit app (finishCommit app
        (ns.foldl stageLive (beginCommit { value := v, queue := ms })))).value
      = ns.foldl (fun a m => app m a) (ms.foldl (fun a m => app m a) v) ∧
    (commit (fun m a => a ++ [m])
        { value := ([] : List M), queue := ms }).value = ms := by
  refine ⟨?_, ?_, ?_, ?_, ?_⟩
  · simp [foldl_stage]
  · simp [foldl_stageLive, beginCommit, finishCommit]
  · simp [foldl_stageLive, beginCommit, finishCommit]
  · simp [foldl_stageLive, beginCommit, finishCommit, commit]
  · simp [commit, beginCommit, finishCommit, foldl_append_trace]

theorem invoke_subscribe_with_filter {F : Type} (r : EventRegistry F)
    (t u : Nat) (c : Nat) (f : Option F) :
    invoke (subscribe_with_filter r u c f) t =
      invoke r t ++ (if u = t then [c] else []) := by
  by_cases h : u = t
  · subst h
    cases hm : mapGet r.registry u with
    | none =>
      simp [invoke, subscribe_with_filter, mapGet_mapInsert, hm]
    | some subs =>
      simp [invoke, subscribe_with_filter, mapGet_mapInsert, hm,
        List.filter_append]
  · simp [invoke, subscribe_with_filter, mapGet_mapInsert, h]

theorem invoke_buildEvents_foldl {F : Type} (ops : List (EventOp F))
    (t : Nat) (r : EventRegistry F) :
    invoke (ops.foldl
        (fun r o => subscribe_with_filter r o.etag o.ecb o.efilter) r) t =
      invoke r t ++ (ops.filter (fun o => o.etag = t)).map
        (fun o => o.ecb) := by
  induction ops generalizing r with
  | nil => simp
  | cons o ops ih =>
    simp only [List.foldl_cons, ih, invoke_subscribe_with_filter,
      List.filter_cons]
    by_cases h : o.etag = t <;> simp [h]

/-- Claim C7: publishing an event of type tag `t` on any reachable bus
invokes exactly the callbacks subscribed (via `subscribe` or
`subscribe_with_filter`) for tag `t`, each once, in registration order, and
no callback subscribed for any other tag; with zero subscribers for `t` the
publish is a silent no-op. -/
theorem c7_publish_in_order {F : Type} (ops : List (EventOp F)) (t : Nat) :
    invoke (buildEvents ops) t =
        (ops.filter (fun o => o.etag = t)).map (fun o => o.ecb) ∧
      ((∀ o ∈ ops, o.etag ≠ t) → invoke (buildEvents ops) t = []) := by
  have hmain : invoke (buildEvents ops) t =
      (ops.filter (fun o => o.etag = t)).map (fun o => o.ecb) := by
    have h := invoke_buildEvents_foldl ops t EventRegistry.new
    simpa [buildEvents, invoke, EventRegistry.new, mapGet] using h
  refine ⟨hmain, fun hnone => ?_⟩
  rw [hmain]
  have : ops.filter (fun o => o.etag = t) = [] := by
    rw [List.filter_eq_nil_iff]
    intro o ho
    simpa using hnone o ho
  simp [this]

/-- Claim C7 (witness): with one subscriber for tag 0 and one for tag 1,
publishing tag 2 — which has zero subscribers — runs nothing. -/
theorem c7_publish_in_order_witness :
    invoke (buildEvents
        ([⟨0, 10, none⟩, ⟨1, 11, none⟩] : List (EventOp Nat))) 2 = [] :=
  (c7_publish_in_order
      ([⟨0, 10, none⟩, ⟨1, 11, none⟩] : List (EventOp Nat)) 2).2 (by decide)

/-- The reverse-index bookkeeping invariant: an entity key appears in the
reverse-index set for tag `t` iff the store holds a live `(e, t)` slot. -/
def indexInvariant {V : Type} (r : EntityRegistry V) : Prop :=
  ∀ e t, e ∈ (mapGet r.components t).getD [] ↔
    (mapGet r.entities (e, t)).isSome

theorem indexInvariant_new {V : Type} :
    indexInvariant (EntityRegistry.new : EntityRegistry V) := by
  intro e t
  simp [EntityRegistry.new, mapGet]

theorem indexInvariant_add {V : Type} (r : EntityRegistry V) (e : String)
    (t : Nat) (x : V) (h : indexInvariant r) :
    indexInvariant (add_component r e t x) := by
  intro e' t'
  by_cases ht : t = t'
  · subst ht
    simp only [add_component, mapGet_mapInsert]
    by_cases he : e = e'
    · subst he
      simp [mem_setInsert]
    · have hk : ¬ ((e, t) = (e', t)) := by
        intro hh
        exact he (congrArg Prod.fst hh)
      simp [mem_setInsert, hk, he, h e' t]
      intro hh
      exact absurd hh.symm he
  · have hk : ¬ ((e, t) = (e', t')) := by
      intro hh
      exact ht (congrArg Prod.snd hh)
    simp only [add_component, mapGet_mapInsert, if_neg ht, if_neg hk]
    exact h e' t'

theorem indexInvariant_remove {V : Type} (r : EntityRegistry V) (t : Nat)
    (e : String) (h : indexInvariant r) :
    indexInvariant (remove_component r t e) := by
  intro e' t'
  cases hc : mapGet r.components t with
  | none =>
    simp only [remove_component, hc]
    by_cases hk : (e, t) = (e', t')
    · obtain ⟨he, ht⟩ := Prod.mk.injEq .. ▸ hk
      subst he
      subst ht
      simp [mapGet_mapRemove_self, hc]
    · simp [mapGet_mapRemove_ne r.entities (e, t) (e', t') hk]
      exact h e' t'
  | some s =>
    simp only [remove_component, hc]
    by_cases ht : t = t'
    · subst ht
      simp only [mapGet_mapInsert, if_pos rfl, Option.getD_some]
      by_cases he : e = e'
      · subst he
        simp [mem_setRemove, mapGet_mapRemove_self]
      · have hk : ¬ ((e, t) = (e', t)) := by
          intro hh
          exact he (congrArg Prod.fst hh)
        have hne : ¬ e' = e := fun hh => he hh.symm
        rw [mapGet_mapRemove_ne r.entities (e, t) (e', t) hk]
        have hinv := h e' t
        rw [hc] at hinv
        simp only [Option.getD_some] at hinv
        simp [mem_setRemove, hne, hinv]
    · have hk : ¬ ((e, t) = (e', t')) := by
        intro hh
        exact ht (congrArg Prod.snd hh)
      rw [mapGet_mapRemove_ne r.entities (e, t) (e', t') hk]
      simp only [mapGet_mapInsert, if_neg ht]
      exact h e' t'

theorem indexInvariant_build {V : Type} (ops : List (StoreOp V)) :
    indexInvariant (build ops) := by
  suffices hgen : ∀ r : EntityRegistry V, indexInvariant r →
      indexInvariant (ops.foldl applyOp r) from
    hgen EntityRegistry.new indexInvariant_new
  induction ops with
  | nil => intro r h; simpa using h
  | cons op ops ih =>
    intro r h
    rw [List.foldl_cons]
    refine ih (applyOp r op) ?_
    cases op with
    | add e t x => exact indexInvariant_add r e t x h
    | remove t e => exact indexInvariant_remove r t e h

/-- Claim C6: in every store state reachable from the empty store by public
operations, an entity key is in the reverse-index set for tag `t` iff the
store holds a live `(e, t)` component slot. -/
theorem c6_reverse_index_invariant {V : Type} (ops : List (StoreOp V))
    (e : String) (t : Nat) :
    e ∈ (get_entities_by_component (build ops) t).getD [] ↔
      (mapGet (build ops).entities (e, t)).isSome :=
  indexInvariant_build ops e t

/-- The type-safety invariant: every boxed value stored under key `(e, t)`
carries dynamic tag `t` (its dynamic type is the type the key tag names). -/
def tagInvariant {V : Type} (r : EntityRegistry V) : Prop :=
  ∀ e t b, mapGet r.entities (e, t) = some b → b.tag = t

theorem tagInvariant_new {V : Type} :
    tagInvariant (EntityRegistry.new : EntityRegistry V) := by
  intro e t b hb
  simp [EntityRegistry.new, mapGet] at hb

theorem tagInvariant_add {V : Type} (r : EntityRegistry V) (e : String)
    (t : Nat) (x : V) (h : tagInvariant r) :
    tagInvariant (add_component r e t x) := by
  intro e' t' b hb
  simp only [add_component, mapGet_mapInsert] at hb
  by_cases hk : (e, t) = (e', t')
  · have ht : t = t' := congrArg Prod.snd hk
    rw [if_pos hk] at hb
    cases hb
    exact ht
  · rw [if_neg hk] at hb
    exact h e' t' b hb

theorem tagInvariant_remove {V : Type} (r : EntityRegistry V) (t : Nat)
    (e : String) (h : tagInvariant r) :
    tagInvariant (remove_component r t e) := by
  intro e' t' b hb
  simp only [remove_component] at hb
  by_cases hk : (e, t) = (e', t')
  · rw [← hk, mapGet_mapRemove_self] at hb
    cases hb
  · rw [mapGet_mapRemove_ne r.entities (e, t) (e', t') hk] at hb
    exact h e' t' b hb

theorem tagInvariant_build {V : Type} (ops : List (StoreOp V)) :
    tagInvariant (build ops) := by
  suffices hgen : ∀ r : EntityRegistry V, tagInvariant r →
      tagInvariant (ops.foldl applyOp r) from
    hgen EntityRegistry.new tagInvariant_new
  induction ops with
  | nil => intro r h; simpa using h
  | cons op ops ih =>
    intro r h
    rw [List.foldl_cons]
    refine ih (applyOp r op) ?_
    cases op with
    | add e t x => exact tagInvariant_add r e t x h
    | remove t e => exact tagInvariant_remove r t e h

/-- Claim C8: in every reachable store state, a boxed value found under key
`(e, t)` has dynamic tag `t`, so the downcast inside `get_component`
succeeds whenever the slot lookup does — the downcast-failure branch after
a found slot is unreachable and `get_component` returns the stored
payload. -/
theorem c8_downcast_never_fails {V : Type} (ops : List (StoreOp V))
    (e : String) (t : Nat) (b : Boxed V)
    (h : mapGet (build ops).entities (e, t) = some b) :
    get_component (build ops) t e = some b.val := by
  have ht : b.tag = t := tagInvariant_build ops e t b h
  simp [get_component, h, ht]

/-- Claim C8 (witness): the downcast-totality statement evaluated on the
store holding component 5 of tag 0 for entity "hero". -/
theorem c8_downcast_never_fails_witness :
    get_component (build ([StoreOp.add "hero" 0 5] : List (StoreOp Nat)))
        0 "hero" = some (Boxed.mk 0 5).val :=
  c8_downcast_never_fails ([StoreOp.add "hero" 0 5] : List (StoreOp Nat))
    "hero" 0 (Boxed.mk 0 5) (by decide)

/-- Claim C4: `remove_component` (modelled from the spec — it is absent
from the source) removes the `(e, t)` slot and drops `e` from `t`'s
reverse-index entry, so `get_component` afterwards yields `none` and the
reverse-index set no longer contains `e`; when the slot is already absent
in a reachable state, the call leaves the store unchanged (a no-op, not an
error). -/
theorem c4_remove_component {V : Type} (ops : List (StoreOp V))
    (e : String) (t : Nat) :
    get_component (remove_component (build ops) t e) t e = none ∧
      e ∉ (get_entities_by_component
          (remove_component (build ops) t e) t).getD [] ∧
      (mapGet (build ops).entities (e, t) = none →
        remove_component (build ops) t e = build ops) := by
  refine ⟨?_, ?_, ?_⟩
  · simp [get_component, remove_component, mapGet_mapRemove_self]
  · cases hc : mapGet (build ops).components t with
    | none => simp [get_entities_by_component, remove_component, hc]
    | some s =>
      simp [get_entities_by_component, remove_component, hc,
        mapGet_mapInsert, mem_setRemove]
  · intro h
    have hidx : e ∉ (mapGet (build ops).components t).getD [] := by
      intro hmem
      have := (indexInvariant_build ops e t).mp hmem
      rw [h] at this
      simp at this
    have hent : mapRemove (build ops).entities (e, t) = (build ops).entities :=
      mapRemove_of_none (build ops).entities (e, t) h
    cases hc : mapGet (build ops).components t with
    | none =>
      simp [remove_component, hc, hent]
    | some s =>
      rw [hc] at hidx
      simp only [Option.getD_some] at hidx
      have hs : setRemove s e = s := setRemove_of_not_mem s e hidx
      simp [remove_component, hc, hent, hs, mapInsert_of_get _ _ _ hc]

/-- Claim C4 (witness): removing tag 1 — which entity "hero" does not hold —
from the store holding only a tag-0 component for "hero": the lookup stays
`none`, the index has no entry, and the store is unchanged. -/
theorem c4_remove_component_witness :
    get_component (remove_component
        (build ([StoreOp.add "hero" 0 5] : List (StoreOp Nat))) 1 "hero")
        1 "hero" = none ∧
      "hero" ∉ (get_entities_by_component (remove_component
          (build ([StoreOp.add "hero" 0 5] : List (StoreOp Nat))) 1 "hero")
          1).getD [] ∧
      remove_component
          (build ([StoreOp.add "hero" 0 5] : List (StoreOp Nat))) 1 "hero"
        = build ([StoreOp.add "hero" 0 5] : List (StoreOp Nat)) := by
  have h := c4_remove_component ([StoreOp.add "hero" 0 5] : List (StoreOp Nat))
    "hero" 1
  exact ⟨h.1, h.2.1, h.2.2 (by decide)⟩
